import Mathlib

/-!
Verification development for the UPKGT package installation engine.

The development shallowly embeds the two installer backends of the
repository and the eopkg manifest parser:

- src/eopkg/src/parser.rs   : XML descriptor parsing (Metadata, Files)
- src/eopkg/src/installer.rs: the eopkg install_package flow
  (parse, unpack install.tar.xz into "/", per-entry SHA-1 check)
- src/rpm/main.rs           : extract_rpm_cpio and the rpm install_package
  flow (extract to /tmp/rpm_extract, copy the usr/ children to /usr)

The filesystem is modelled as an association list from paths (lists of
components) to nodes; a write prepends, and lookups take the first match,
so later writes shadow earlier ones.  External collaborators are modelled
at their documented behaviour: the tar crate's unpack_in skips (without
error) any archive member whose path contains a parent-directory
component; the SHA-1 digest is an opaque parameter function from file
contents to hex strings; rpm2cpio/cpio extraction is an optional list of
extracted nodes (none models a failed extraction), and since cpio is run
without -u and create_dir_all keeps existing content, extraction appends
the archive's nodes after whatever was already in the staging directory.
-/

/-- A filesystem node: a directory, or a regular file with its content. -/
inductive FKind where
  | dir : FKind
  | file : String → FKind
deriving DecidableEq

/-- A filesystem: an association list from paths (component lists) to nodes.
Writes prepend, lookups take the first match. -/
abbrev Fs := List (List String × FKind)

/-- Whether a path exists in the filesystem (as a file or a directory). -/
def pathExists (fs : Fs) (p : List String) : Bool :=
  fs.any (fun e => e.1 == p)

/-- Look up the node stored at a path (first match wins). -/
def fsGet (fs : Fs) (p : List String) : Option FKind :=
  match fs.find? (fun e => e.1 == p) with
  | some e => some e.2
  | none => none

/-- Store a node at a path, shadowing any previous node there. -/
def fsSet (fs : Fs) (p : List String) (k : FKind) : Fs :=
  (p, k) :: fs

/-- The nonempty prefixes of a path, shortest first. -/
def prefixesNE (p : List String) : List (List String) :=
  (List.range p.length).map (fun i => p.take (i + 1))

/-- Create one directory if its path is still absent, as each level of
fs::create_dir_all does. -/
def mkdirStep (acc : Fs) (q : List String) : Fs :=
  if pathExists acc q then acc else fsSet acc q FKind.dir

/-- Model of fs::create_dir_all: create every missing prefix of the path as
a directory, leaving existing paths (files included) untouched. -/
def createDirAll (fs : Fs) (p : List String) : Fs :=
  (prefixesNE p).foldl mkdirStep fs

/-- Write a regular file, creating its parent directories first. -/
def fsWriteFile (fs : Fs) (p : List String) (c : String) : Fs :=
  fsSet (createDirAll fs p.dropLast) p (FKind.file c)

/-- Whether a path holds a regular file. -/
def isFileAt (fs : Fs) (p : List String) : Bool :=
  match fsGet fs p with
  | some (FKind.file _) => true
  | _ => false

/-- One member of the install.tar.xz archive: its encoded path and content.
Directory members are not modelled; the claims only inspect files. -/
structure TarEntry where
  path : String
  content : String
deriving DecidableEq

/-- Split a character list into components on the slash separator, the
characters of the pending component carried reversed. -/
def splitPathAux : List Char → List Char → List String
  | [], acc => [String.mk acc.reverse]
  | c :: cs, acc =>
    if c = '/' then String.mk acc.reverse :: splitPathAux cs []
    else splitPathAux cs (c :: acc)

/-- Split an encoded path into components on the slash separator. -/
def splitPath (s : String) : List String :=
  splitPathAux s.data []

/-- Whether an archive member path contains a parent-directory component,
which is what the tar crate's unpack_in guard rejects. -/
def escapes (s : String) : Bool :=
  (splitPath s).contains ".."

/-- The destination of a non-escaping archive member under the unpack root:
its components with empty and current-directory components dropped, as the
tar crate's unpack_in builds the destination path. -/
def tarDest (s : String) : List String :=
  (splitPath s).filter (fun c => !(c == "" || c == "."))

/-- Resolution of a path by the operating system when a file is opened:
empty and current-directory components vanish and a parent-directory
component pops the previous one. -/
def osResolve (s : String) : List String :=
  (splitPath s).foldl
    (fun acc c =>
      if c == "" || c == "." then acc
      else if c == ".." then acc.dropLast
      else acc ++ [c]) []

/-- Model of archive.unpack_in of installer.rs line 33 at the documented
behaviour of the tar crate: every member is written beneath the root in
order, except that a member whose path holds a parent-directory component
is skipped without an error.  unpackStep handles one member. -/
def unpackStep (acc : Fs) (e : TarEntry) : Fs :=
  if escapes e.path then acc
  else fsWriteFile acc (tarDest e.path) e.content

/-- Model of archive.unpack_in of installer.rs line 33: unpack the whole
archive beneath the root in member order. -/
def unpackIn (fs : Fs) (arch : List TarEntry) : Fs :=
  arch.foldl unpackStep fs

/-- A descriptor document as seen by the serde deserializer: the element
names and their text contents, in document order. -/
abbrev Doc := List (String × String)

/-- Whether a document carries an element of the given name. -/
def hasField (doc : Doc) (name : String) : Bool :=
  doc.any (fun e => e.1 == name)

/-- The serde error message for an absent mandatory field. -/
def missingFieldMsg (name : String) : String :=
  "missing field " ++ name

/-- Extract a mandatory field of a document, in serde fashion: the first
element of that name, or a missing-field error. -/
def getField (doc : Doc) (name : String) : Except String String :=
  match doc.find? (fun e => e.1 == name) with
  | some e => Except.ok e.2
  | none => Except.error (missingFieldMsg name)

/-- Read a decimal number from a character list, or fail at the first
non-digit character. -/
def natFromCharsAux : List Char → Nat → Option Nat
  | [], acc => some acc
  | c :: cs, acc =>
    if 48 ≤ c.toNat ∧ c.toNat ≤ 57 then
      natFromCharsAux cs (acc * 10 + (c.toNat - 48))
    else none

/-- Parse a string as a decimal number, as serde does for the numeric
struct fields; the empty string and non-digit characters fail. -/
def strToNat (s : String) : Option Nat :=
  match s.data with
  | [] => none
  | cs => natFromCharsAux cs 0

/-- Extract a mandatory numeric field of a document. -/
def parseNatField (doc : Doc) (name : String) : Except String Nat := do
  let s ← getField doc name
  match strToNat s with
  | some n => Except.ok n
  | none => Except.error ("invalid value in field " ++ name)

/-- The Metadata record of parser.rs: all four fields are mandatory. -/
structure Metadata where
  Name : String
  Summary : String
  Description : String
  Architecture : String
deriving DecidableEq

/-- The File record of parser.rs: all seven fields are mandatory.  The
source names the second field Type, which is reserved in Lean. -/
structure FileEntry where
  Path : String
  Ftype : String
  Size : Nat
  Uid : Nat
  Gid : Nat
  Mode : String
  Hash : String
deriving DecidableEq

/-- The Files record of parser.rs: the ordered list of File elements. -/
structure Files where
  File : List FileEntry
deriving DecidableEq

/-- Model of parse_metadata_xml of parser.rs: deserialize the Metadata
struct, requiring every field in declaration order. -/
def parse_metadata_xml (doc : Doc) : Except String Metadata := do
  let n ← getField doc "Name"
  let s ← getField doc "Summary"
  let d ← getField doc "Description"
  let a ← getField doc "Architecture"
  Except.ok ⟨n, s, d, a⟩

/-- Deserialize one File element, requiring every field in declaration
order, numeric fields parsed as numbers. -/
def parseFileEntry (doc : Doc) : Except String FileEntry := do
  let p ← getField doc "Path"
  let t ← getField doc "Type"
  let sz ← parseNatField doc "Size"
  let uid ← parseNatField doc "Uid"
  let gid ← parseNatField doc "Gid"
  let m ← getField doc "Mode"
  let h ← getField doc "Hash"
  Except.ok ⟨p, t, sz, uid, gid, m, h⟩

/-- Deserialize the File elements in document order, failing at the first
malformed element as serde does for a sequence. -/
def parseFileEntries : List Doc → Except String (List FileEntry)
  | [] => Except.ok []
  | d :: rest => do
    let x ← parseFileEntry d
    let xs ← parseFileEntries rest
    Except.ok (x :: xs)

/-- Model of parse_files_xml of parser.rs: deserialize the Files struct
from the list of its File elements. -/
def parse_files_xml (docs : List Doc) : Except String Files := do
  let es ← parseFileEntries docs
  Except.ok ⟨es⟩

/-- The messages the eopkg installer prints while it runs. -/
inductive Event where
  | unpackError : String → String → Event
  | hashMismatch : String → String → String → Event
  | installedOk : Event
deriving DecidableEq

/-- How an eopkg install run ends: normal return, or a panic from one of
the expect calls. -/
inductive EopkgResult where
  | success : EopkgResult
  | panicked : String → EopkgResult
deriving DecidableEq

/-- The observable outcome of an eopkg install run: the root filesystem,
the printed messages, and how the run ended. -/
structure EopkgOutcome where
  fs : Fs
  events : List Event
  result : EopkgResult
deriving DecidableEq

/-- The hash comparison of installer.rs line 47: the computed lowercase
hex digest is compared to the declared hash by exact string equality. -/
def hashMatches (declared calculated : String) : Bool :=
  calculated == declared

/-- The per-entry loop of installer.rs lines 29 to 50.  The first
iteration's unpack_in call consumes the whole archive stream, so later
iterations unpack nothing; each iteration then opens the entry's path
under "/", reads it (panicking if absent), hashes it and prints a message
on mismatch.  The arch argument is the not-yet-consumed archive. -/
def eopkgLoop (h : String → String) :
    List TarEntry → Fs → List Event → List FileEntry → EopkgOutcome
  | _, fs, evs, [] =>
    ⟨fs, evs ++ [Event.installedOk], EopkgResult.success⟩
  | arch, fs, evs, fe :: rest =>
    let fs1 := unpackIn fs arch
    match fsGet fs1 (osResolve fe.Path) with
    | none =>
      ⟨fs1, evs, EopkgResult.panicked ("Failed to open extracted file: " ++ fe.Path)⟩
    | some FKind.dir =>
      ⟨fs1, evs, EopkgResult.panicked "Failed to read file for hash check"⟩
    | some (FKind.file c) =>
      let calculated := h c
      let evs1 :=
        if hashMatches fe.Hash calculated then evs
        else evs ++ [Event.hashMismatch fe.Path fe.Hash calculated]
      eopkgLoop h [] fs1 evs1 rest

namespace Eopkg

/-- Model of install_package of src/eopkg/src/installer.rs.  The h
argument is the SHA-1 hex digest function; metaDoc, filesDoc and arch are
the read results of metadata.xml, files.xml and install.tar.xz (none
models a missing or unreadable file, which the source turns into an
expect panic); fs0 is the root filesystem the archive is unpacked into
and the verified entries are read back from. -/
def install_package (h : String → String) (metaDoc : Option Doc)
    (filesDoc : Option (List Doc)) (arch : Option (List TarEntry))
    (fs0 : Fs) : EopkgOutcome :=
  match metaDoc with
  | none => ⟨fs0, [], EopkgResult.panicked "Failed to read metadata.xml"⟩
  | some md =>
    match parse_metadata_xml md with
    | Except.error _ =>
      ⟨fs0, [], EopkgResult.panicked "Failed to parse metadata.xml"⟩
    | Except.ok _ =>
      match filesDoc with
      | none => ⟨fs0, [], EopkgResult.panicked "Failed to read files.xml"⟩
      | some fd =>
        match parse_files_xml fd with
        | Except.error _ =>
          ⟨fs0, [], EopkgResult.panicked "Failed to parse files.xml"⟩
        | Except.ok files =>
          match arch with
          | none =>
            ⟨fs0, [], EopkgResult.panicked "Failed to open install.tar.xz"⟩
          | some a => eopkgLoop h a fs0 [] files.File

end Eopkg

/-- The Result of the rpm installer functions. -/
inductive RustResult where
  | ok : RustResult
  | err : String → RustResult
deriving DecidableEq

/-- One node extracted by cpio into the staging directory. -/
structure CpioNode where
  path : List String
  kind : FKind
deriving DecidableEq

/-- The immediate-child name a staging node contributes under usr/, if
its path lies in the usr/ subtree. -/
def childName (n : CpioNode) : Option String :=
  match n.path with
  | "usr" :: c :: _ => some c
  | _ => none

/-- Keep the first occurrence of each element. -/
def dedupFirst (xs : List String) : List String :=
  xs.foldl (fun acc x => if acc.contains x then acc else acc ++ [x]) []

/-- The entries fs::read_dir lists in the staging usr/ directory, in
first-occurrence order of the staging nodes. -/
def childNames (ns : List CpioNode) : List String :=
  dedupFirst (ns.filterMap childName)

/-- Whether a usr/ child is a directory or a file, decided by the first
staging node beneath it: a deeper path means a directory, an exact
two-component path carries its own node kind. -/
def childKind (ns : List CpioNode) (c : String) : FKind :=
  match ns.find? (fun n => childName n == some c) with
  | some n => if n.path.length == 2 then n.kind else FKind.dir
  | none => FKind.dir

/-- Whether the staging directory holds a usr/ subtree, which is what the
install_dir.exists() test of main.rs line 45 observes. -/
def usrExists (ns : List CpioNode) : Bool :=
  ns.any (fun n => n.path.head? == some "usr")

/-- The observable outcome of an rpm install run: the target filesystem
under /usr, the staging directory content (none once removed), the warned
already-existing target paths, and the returned Result. -/
structure RpmOutcome where
  target : Fs
  staging : Option (List CpioNode)
  warns : List (List String)
  result : RustResult
deriving DecidableEq

/-- The error message of a failed fs::copy in main.rs line 70. -/
def copyErrMsg : String := "Error copying file"

/-- The error message of a failed cpio extraction in main.rs line 30. -/
def cpioErrMsg : String := "Error extracting cpio archive"

/-- The error message of main.rs line 46 for an absent usr/ staging
directory. -/
def installDirMissingMsg : String := "Install directory not found"

namespace Rpm

/-- Model of extract_rpm_cpio of src/rpm/main.rs lines 8 to 34: the
staging directory is created with create_dir_all, which keeps whatever it
already holds, and cpio (run without -u, so it does not overwrite
existing entries) appends the archive's nodes after the stale ones; none
models a failed extraction, which surfaces as an error with the staging
directory left as it was. -/
def extract_rpm_cpio (archive : Option (List CpioNode))
    (staging0 : List CpioNode) : List CpioNode × RustResult :=
  match archive with
  | none => (staging0, RustResult.err cpioErrMsg)
  | some arch => (staging0 ++ arch, RustResult.ok)

end Rpm

/-- The per-child loop of src/rpm/main.rs lines 50 to 72 over the
read_dir listing of the staging usr/ directory: an already existing
target path is warned about and skipped; a directory child is created
with create_dir_all (its content is not copied); a file child has its
parent created and is copied, a failing copy returning the error at once.
ioErr tells which target paths the copy fails on. -/
def rpmLoop (ioErr : List String → Bool) (staging : List CpioNode) :
    List String → Fs → List (List String) → Fs × List (List String) × RustResult
  | [], t, ws => (t, ws, RustResult.ok)
  | c :: rest, t, ws =>
    if pathExists t ["usr", c] then
      rpmLoop ioErr staging rest t (ws ++ [["usr", c]])
    else
      match childKind staging c with
      | FKind.dir => rpmLoop ioErr staging rest (createDirAll t ["usr", c]) ws
      | FKind.file s =>
        let t1 := createDirAll t ["usr"]
        if ioErr ["usr", c] then (t1, ws, RustResult.err copyErrMsg)
        else rpmLoop ioErr staging rest (fsSet t1 ["usr", c] (FKind.file s)) ws

namespace Rpm

/-- Model of install_package of src/rpm/main.rs lines 37 to 79: extract
the archive into the fixed staging directory /tmp/rpm_extract, fail if
the staging usr/ directory is absent, copy the usr/ children into /usr
skipping existing paths, and remove the staging directory only on the
all-successful path. -/
def install_package (ioErr : List String → Bool)
    (archive : Option (List CpioNode)) (staging0 : List CpioNode)
    (target0 : Fs) : RpmOutcome :=
  match extract_rpm_cpio archive staging0 with
  | (staging1, RustResult.err e) => ⟨target0, some staging1, [], RustResult.err e⟩
  | (staging1, RustResult.ok) =>
    if usrExists staging1 then
      match rpmLoop ioErr staging1 (childNames staging1) target0 [] with
      | (t, ws, RustResult.ok) => ⟨t, none, ws, RustResult.ok⟩
      | (t, ws, RustResult.err e) => ⟨t, some staging1, ws, RustResult.err e⟩
    else ⟨target0, some staging1, [], RustResult.err installDirMissingMsg⟩

end Rpm

/-- The spec's case-insensitive hex comparison, for comparison against
the code's hashMatches: fold ASCII letters to lower case and compare. -/
def asciiFold (c : Char) : Char :=
  if 65 ≤ c.toNat ∧ c.toNat ≤ 90 then Char.ofNat (c.toNat + 32) else c

/-- Whether two hex strings are equal up to ASCII letter case. -/
def specCaseInsensitiveHexEq (a b : String) : Bool :=
  a.data.map asciiFold == b.data.map asciiFold

/-! Lemmas about the filesystem model. -/

theorem pathExists_fsSet (fs : Fs) (p q : List String) (k : FKind) :
    pathExists (fsSet fs p k) q = true ↔ q = p ∨ pathExists fs q = true := by
  simp only [pathExists, fsSet, List.any_cons, Bool.or_eq_true, beq_iff_eq]
  constructor
  · rintro (h | h)
    · exact Or.inl h.symm
    · exact Or.inr h
  · rintro (h | h)
    · exact Or.inl h.symm
    · exact Or.inr h

theorem fsGet_fsSet_self (fs : Fs) (p : List String) (k : FKind) :
    fsGet (fsSet fs p k) p = some k := by
  simp [fsGet, fsSet, List.find?_cons]

theorem fsGet_fsSet_ne (fs : Fs) (p q : List String) (k : FKind)
    (h : q ≠ p) : fsGet (fsSet fs p k) q = fsGet fs q := by
  have hb : (p == q) = false := by
    simp [beq_iff_eq]
    exact fun he => h he.symm
  simp [fsGet, fsSet, List.find?_cons, hb]

theorem pathExists_of_fsGet (fs : Fs) (q : List String) (k : FKind)
    (h : fsGet fs q = some k) : pathExists fs q = true := by
  unfold fsGet at h
  cases hf : fs.find? (fun e => e.1 == q) with
  | none => rw [hf] at h; exact absurd h (by simp)
  | some e =>
    have hm := List.mem_of_find?_eq_some hf
    have hp := List.find?_some hf
    simp only [pathExists, List.any_eq_true]
    exact ⟨e, hm, hp⟩

theorem pathExists_mkdirFold (L : List (List String)) (fs : Fs) (q : List String) :
    pathExists (L.foldl mkdirStep fs) q = true ↔
      pathExists fs q = true ∨ q ∈ L := by
  induction L generalizing fs with
  | nil => simp
  | cons a L ih =>
    rw [List.foldl_cons, ih]
    have hstep : pathExists (mkdirStep fs a) q = true ↔
        pathExists fs q = true ∨ q = a := by
      unfold mkdirStep
      by_cases ha : pathExists fs a = true
      · rw [if_pos ha]
        constructor
        · exact fun h => Or.inl h
        · rintro (h | rfl)
          · exact h
          · exact ha
      · rw [if_neg ha, pathExists_fsSet]
        tauto
    rw [hstep]
    simp [List.mem_cons]
    tauto

theorem fsGet_mkdirFold (L : List (List String)) (fs : Fs) (q : List String)
    (h : pathExists fs q = true) :
    fsGet (L.foldl mkdirStep fs) q = fsGet fs q := by
  induction L generalizing fs with
  | nil => rfl
  | cons a L ih =>
    rw [List.foldl_cons]
    have hstep : fsGet (mkdirStep fs a) q = fsGet fs q ∧
        pathExists (mkdirStep fs a) q = true := by
      unfold mkdirStep
      by_cases ha : pathExists fs a = true
      · rw [if_pos ha]; exact ⟨rfl, h⟩
      · rw [if_neg ha]
        have hq : q ≠ a := by
          intro he; rw [he] at h; exact ha h
        refine ⟨fsGet_fsSet_ne fs a q FKind.dir hq, ?_⟩
        rw [pathExists_fsSet]
        exact Or.inr h
    rw [ih (mkdirStep fs a) hstep.2, hstep.1]

theorem pathExists_createDirAll (fs : Fs) (p q : List String) :
    pathExists (createDirAll fs p) q = true ↔
      pathExists fs q = true ∨ q ∈ prefixesNE p := by
  exact pathExists_mkdirFold (prefixesNE p) fs q

theorem fsGet_createDirAll_of_exists (fs : Fs) (p q : List String)
    (h : pathExists fs q = true) :
    fsGet (createDirAll fs p) q = fsGet fs q := by
  exact fsGet_mkdirFold (prefixesNE p) fs q h

theorem fsGet_fsWriteFile_self (fs : Fs) (p : List String) (c : String) :
    fsGet (fsWriteFile fs p c) p = some (FKind.file c) := by
  unfold fsWriteFile
  exact fsGet_fsSet_self _ p (FKind.file c)

theorem fsGet_fsWriteFile_ne_of_exists (fs : Fs) (p q : List String)
    (c : String) (hex : pathExists fs q = true) (hne : q ≠ p) :
    fsGet (fsWriteFile fs p c) q = fsGet fs q := by
  unfold fsWriteFile
  rw [fsGet_fsSet_ne _ p q (FKind.file c) hne]
  exact fsGet_createDirAll_of_exists fs p.dropLast q hex

theorem pathExists_fsWriteFile_of (fs : Fs) (p q : List String) (c : String)
    (h : pathExists fs q = true) :
    pathExists (fsWriteFile fs p c) q = true := by
  unfold fsWriteFile
  rw [pathExists_fsSet]
  right
  rw [pathExists_createDirAll]
  exact Or.inl h

theorem prefixesNE_single (a : String) : prefixesNE [a] = [[a]] := rfl

theorem prefixesNE_pair (a b : String) :
    prefixesNE [a, b] = [[a], [a, b]] := rfl

/-! Lemmas about archive unpacking. -/

theorem unpackIn_nil (fs : Fs) : unpackIn fs [] = fs := rfl

theorem unpackIn_append (fs : Fs) (l1 l2 : List TarEntry) :
    unpackIn fs (l1 ++ l2) = unpackIn (unpackIn fs l1) l2 := by
  unfold unpackIn
  rw [List.foldl_append]

theorem unpackIn_filter_escaping (fs : Fs) (arch : List TarEntry) :
    unpackIn fs (arch.filter (fun e => !escapes e.path)) = unpackIn fs arch := by
  induction arch generalizing fs with
  | nil => rfl
  | cons e rest ih =>
    by_cases he : escapes e.path
    · have h1 : (fun e => !escapes e.path) e = false := by simp [he]
      rw [List.filter_cons_of_neg (by simp [he])]
      have h2 : unpackIn fs (e :: rest) = unpackIn (unpackStep fs e) rest := rfl
      rw [h2]
      have h3 : unpackStep fs e = fs := by simp [unpackStep, he]
      rw [h3]
      exact ih fs
    · rw [List.filter_cons_of_pos (by simp [he])]
      have h2 : unpackIn fs (e :: rest) = unpackIn (unpackStep fs e) rest := rfl
      have h2' : unpackIn fs (e :: List.filter (fun e => !escapes e.path) rest) =
          unpackIn (unpackStep fs e) (List.filter (fun e => !escapes e.path) rest) := rfl
      rw [h2, h2']
      exact ih (unpackStep fs e)

theorem fsGet_unpackIn_preserve_file (l : List TarEntry) (fs : Fs)
    (P : List String) (c : String)
    (h : fsGet fs P = some (FKind.file c))
    (hne : ∀ e ∈ l, tarDest e.path ≠ P) :
    fsGet (unpackIn fs l) P = some (FKind.file c) := by
  induction l generalizing fs with
  | nil => exact h
  | cons e rest ih =>
    have h2 : unpackIn fs (e :: rest) = unpackIn (unpackStep fs e) rest := rfl
    rw [h2]
    have hstep : fsGet (unpackStep fs e) P = some (FKind.file c) := by
      unfold unpackStep
      by_cases he : escapes e.path
      · rw [if_pos he]; exact h
      · rw [if_neg he]
        have hx : pathExists fs P = true := pathExists_of_fsGet fs P _ h
        rw [fsGet_fsWriteFile_ne_of_exists fs (tarDest e.path) P e.content hx
          (fun hP => hne e (List.mem_cons_self e rest) hP.symm)]
        exact h
    exact ih (unpackStep fs e) hstep (fun x hx => hne x (List.mem_cons_of_mem e hx))

theorem fsGet_unpackIn_write (fs : Fs) (l1 l2 : List TarEntry) (m : TarEntry)
    (hesc : escapes m.path = false)
    (h2 : ∀ e ∈ l2, tarDest e.path ≠ tarDest m.path) :
    fsGet (unpackIn fs (l1 ++ m :: l2)) (tarDest m.path) = some (FKind.file m.content) := by
  rw [unpackIn_append]
  have hstep : unpackIn (unpackIn fs l1) (m :: l2) =
      unpackIn (unpackStep (unpackIn fs l1) m) l2 := rfl
  rw [hstep]
  have hw : fsGet (unpackStep (unpackIn fs l1) m) (tarDest m.path) =
      some (FKind.file m.content) := by
    unfold unpackStep
    rw [if_neg (by simp [hesc])]
    exact fsGet_fsWriteFile_self _ _ _
  exact fsGet_unpackIn_preserve_file l2 _ _ _ hw h2

/-! Lemmas about the eopkg install loop. -/

theorem eopkgLoop_arch_nil_fs (h : String → String) (es : List FileEntry) :
    ∀ (fs : Fs) (evs : List Event), (eopkgLoop h [] fs evs es).fs = fs := by
  induction es with
  | nil => intro fs evs; rfl
  | cons fe rest ih =>
    intro fs evs
    cases hg : fsGet fs (osResolve fe.Path) with
    | none => simp [eopkgLoop, unpackIn_nil, hg]
    | some k =>
      cases k with
      | dir => simp [eopkgLoop, unpackIn_nil, hg]
      | file c =>
        simp only [eopkgLoop, unpackIn_nil, hg]
        exact ih fs _

theorem eopkgLoop_fs (h : String → String) (arch : List TarEntry)
    (fs : Fs) (evs : List Event) (es : List FileEntry) (hne : es ≠ []) :
    (eopkgLoop h arch fs evs es).fs = unpackIn fs arch := by
  cases es with
  | nil => exact absurd rfl hne
  | cons fe rest =>
    cases hg : fsGet (unpackIn fs arch) (osResolve fe.Path) with
    | none => simp [eopkgLoop, hg]
    | some k =>
      cases k with
      | dir => simp [eopkgLoop, hg]
      | file c =>
        simp only [eopkgLoop, hg]
        exact eopkgLoop_arch_nil_fs h rest (unpackIn fs arch) _

theorem eopkgLoop_events_append (h : String → String) (es : List FileEntry) :
    ∀ (arch : List TarEntry) (fs : Fs) (evs : List Event),
      (eopkgLoop h arch fs evs es).events =
        evs ++ (eopkgLoop h arch fs [] es).events := by
  induction es with
  | nil => intro arch fs evs; simp [eopkgLoop]
  | cons fe rest ih =>
    intro arch fs evs
    cases hg : fsGet (unpackIn fs arch) (osResolve fe.Path) with
    | none => simp [eopkgLoop, hg]
    | some k =>
      cases k with
      | dir => simp [eopkgLoop, hg]
      | file c =>
        simp only [eopkgLoop, hg]
        by_cases hm : hashMatches fe.Hash (h c) = true
        · rw [if_pos hm, if_pos hm]
          exact ih [] (unpackIn fs arch) evs
        · rw [if_neg hm, if_neg hm]
          rw [ih [] (unpackIn fs arch) (evs ++ [Event.hashMismatch fe.Path fe.Hash (h c)]),
            ih [] (unpackIn fs arch) ([] ++ [Event.hashMismatch fe.Path fe.Hash (h c)])]
          simp

theorem eopkgLoop_success (h : String → String) (es : List FileEntry) :
    ∀ (arch : List TarEntry) (fs : Fs) (evs : List Event),
      (∀ fe ∈ es, isFileAt (unpackIn fs arch) (osResolve fe.Path) = true) →
      (eopkgLoop h arch fs evs es).result = EopkgResult.success ∧
        (eopkgLoop h arch fs evs es).events.getLast? = some Event.installedOk := by
  induction es with
  | nil =>
    intro arch fs evs _
    refine ⟨rfl, ?_⟩
    show (evs ++ [Event.installedOk]).getLast? = some Event.installedOk
    rw [List.getLast?_append_cons]
    rfl
  | cons fe rest ih =>
    intro arch fs evs hall
    have hfe := hall fe (List.mem_cons_self fe rest)
    unfold isFileAt at hfe
    cases hg : fsGet (unpackIn fs arch) (osResolve fe.Path) with
    | none => rw [hg] at hfe; exact absurd hfe (by simp)
    | some k =>
      cases k with
      | dir => rw [hg] at hfe; exact absurd hfe (by simp)
      | file c =>
        simp only [eopkgLoop, hg]
        refine ih [] (unpackIn fs arch) _ ?_
        intro fe2 h2
        have := hall fe2 (List.mem_cons_of_mem fe h2)
        rwa [unpackIn_nil]

theorem eopkgLoop_mismatch_mem (h : String → String) (es : List FileEntry) :
    ∀ (arch : List TarEntry) (fs : Fs) (evs : List Event) (fe : FileEntry) (c : String),
      (∀ fe2 ∈ es, isFileAt (unpackIn fs arch) (osResolve fe2.Path) = true) →
      fe ∈ es →
      fsGet (unpackIn fs arch) (osResolve fe.Path) = some (FKind.file c) →
      hashMatches fe.Hash (h c) = false →
      Event.hashMismatch fe.Path fe.Hash (h c) ∈ (eopkgLoop h arch fs evs es).events := by
  induction es with
  | nil => intro _ _ _ _ _ _ hmem _ _; exact absurd hmem (by simp)
  | cons fe0 rest ih =>
    intro arch fs evs fe c hall hmem hget hmis
    have hfe0 := hall fe0 (List.mem_cons_self fe0 rest)
    unfold isFileAt at hfe0
    cases hg : fsGet (unpackIn fs arch) (osResolve fe0.Path) with
    | none => rw [hg] at hfe0; exact absurd hfe0 (by simp)
    | some k =>
      cases k with
      | dir => rw [hg] at hfe0; exact absurd hfe0 (by simp)
      | file c0 =>
        simp only [eopkgLoop, hg]
        rcases List.mem_cons.mp hmem with heq | hmem2
        · subst heq
          have hc : c0 = c := by
            rw [hg] at hget
            exact (FKind.file.injEq c0 c).mp (Option.some.injEq _ _ ▸ hget ▸ rfl)
          subst hc
          rw [if_neg (by simp [hmis])]
          rw [eopkgLoop_events_append]
          exact List.mem_append_left _ (List.mem_append_right _ (List.mem_singleton.mpr rfl))
        · refine ih [] (unpackIn fs arch) _ fe c ?_ hmem2 ?_ hmis
          · intro fe2 h2
            have := hall fe2 (List.mem_cons_of_mem fe0 h2)
            rwa [unpackIn_nil]
          · rwa [unpackIn_nil]

/-! Lemmas about the rpm install loop. -/

theorem rpmLoop_all_exist (ioErr : List String → Bool)
    (staging : List CpioNode) (cs : List String) :
    ∀ (t : Fs) (ws : List (List String)),
      (∀ c ∈ cs, pathExists t ["usr", c] = true) →
      rpmLoop ioErr staging cs t ws =
        (t, ws ++ cs.map (fun c => ["usr", c]), RustResult.ok) := by
  induction cs with
  | nil => intro t ws _; simp [rpmLoop]
  | cons c rest ih =>
    intro t ws hall
    have hc := hall c (List.mem_cons_self c rest)
    simp only [rpmLoop, hc, if_pos]
    rw [ih t (ws ++ [["usr", c]]) (fun x hx => hall x (List.mem_cons_of_mem c hx))]
    simp

theorem rpmLoop_target_paths (ioErr : List String → Bool)
    (staging : List CpioNode) (cs : List String) :
    ∀ (t : Fs) (ws : List (List String)) (p : List String),
      pathExists (rpmLoop ioErr staging cs t ws).1 p = true →
      pathExists t p = true ∨ p = ["usr"] ∨ ∃ c ∈ cs, p = ["usr", c] := by
  induction cs with
  | nil => intro t ws p hp; exact Or.inl hp
  | cons c rest ih =>
    intro t ws p hp
    by_cases hex : pathExists t ["usr", c] = true
    · rw [rpmLoop, if_pos hex] at hp
      rcases ih t _ p hp with h | h | ⟨c2, hc2, he⟩
      · exact Or.inl h
      · exact Or.inr (Or.inl h)
      · exact Or.inr (Or.inr ⟨c2, List.mem_cons_of_mem c hc2, he⟩)
    · rw [rpmLoop, if_neg hex] at hp
      cases hk : childKind staging c with
      | dir =>
        rw [hk] at hp
        rcases ih _ _ p hp with h | h | ⟨c2, hc2, he⟩
        · rcases (pathExists_createDirAll t ["usr", c] p).mp h with h2 | h2
          · exact Or.inl h2
          · rw [prefixesNE_pair] at h2
            rcases List.mem_cons.mp h2 with h3 | h3
            · exact Or.inr (Or.inl h3)
            · exact Or.inr (Or.inr ⟨c, List.mem_cons_self c rest,
                List.mem_singleton.mp h3⟩)
        · exact Or.inr (Or.inl h)
        · exact Or.inr (Or.inr ⟨c2, List.mem_cons_of_mem c hc2, he⟩)
      | file s =>
        rw [hk] at hp
        dsimp only at hp
        by_cases hio : ioErr ["usr", c] = true
        · rw [if_pos hio] at hp
          rcases (pathExists_createDirAll t ["usr"] p).mp hp with h2 | h2
          · exact Or.inl h2
          · rw [prefixesNE_single] at h2
            exact Or.inr (Or.inl (List.mem_singleton.mp h2))
        · rw [if_neg hio] at hp
          rcases ih _ _ p hp with h | h | ⟨c2, hc2, he⟩
          · rcases (pathExists_fsSet _ ["usr", c] p (FKind.file s)).mp h with h2 | h2
            · exact Or.inr (Or.inr ⟨c, List.mem_cons_self c rest, h2⟩)
            · rcases (pathExists_createDirAll t ["usr"] p).mp h2 with h3 | h3
              · exact Or.inl h3
              · rw [prefixesNE_single] at h3
                exact Or.inr (Or.inl (List.mem_singleton.mp h3))
          · exact Or.inr (Or.inl h)
          · exact Or.inr (Or.inr ⟨c2, List.mem_cons_of_mem c hc2, he⟩)

/-! Lemmas about the descriptor parser. -/

theorem getField_of_not_hasField (doc : Doc) (n : String)
    (h : hasField doc n = false) :
    getField doc n = Except.error (missingFieldMsg n) := by
  unfold getField
  have hf : doc.find? (fun e => e.1 == n) = none := by
    rw [List.find?_eq_none]
    intro x hx hpx
    have hT : doc.any (fun e => e.1 == n) = true :=
      List.any_eq_true.mpr ⟨x, hx, hpx⟩
    rw [hasField] at h
    rw [hT] at h
    exact absurd h (by simp)
  rw [hf]

/-- An eopkg loop over a filtered archive behaves as over the full
archive: escaping members contribute nothing. -/
theorem eopkgLoop_filter_escaping (h : String → String) (l : List TarEntry)
    (fs : Fs) (evs : List Event) (es : List FileEntry) :
    eopkgLoop h (l.filter (fun e => !escapes e.path)) fs evs es =
      eopkgLoop h l fs evs es := by
  cases es with
  | nil => rfl
  | cons fe rest => simp only [eopkgLoop, unpackIn_filter_escaping]

/-! The claims. -/

/-- C1, counterexample: with a single-entry manifest whose declared hash
is bb while the staged content hashes to aa, the install still reports
success, the mismatching file stays installed under the target root, and
no IntegrityError exists: content is copied before its verification. -/
theorem c1_counterexample :
    (Eopkg.install_package (fun _ => "aa")
      (some [("Name","demo"),("Summary","s"),("Description","d"),("Architecture","x86_64")])
      (some [[("Path","bin/app"),("Type","file"),("Size","1"),("Uid","0"),
        ("Gid","0"),("Mode","755"),("Hash","bb")]])
      (some [⟨"bin/app","x"⟩]) []).result = EopkgResult.success ∧
    fsGet (Eopkg.install_package (fun _ => "aa")
      (some [("Name","demo"),("Summary","s"),("Description","d"),("Architecture","x86_64")])
      (some [[("Path","bin/app"),("Type","file"),("Size","1"),("Uid","0"),
        ("Gid","0"),("Mode","755"),("Hash","bb")]])
      (some [⟨"bin/app","x"⟩]) []).fs ["bin","app"] = some (FKind.file "x") ∧
    (Eopkg.install_package (fun _ => "aa")
      (some [("Name","demo"),("Summary","s"),("Description","d"),("Architecture","x86_64")])
      (some [[("Path","bin/app"),("Type","file"),("Size","1"),("Uid","0"),
        ("Gid","0"),("Mode","755"),("Hash","bb")]])
      (some [⟨"bin/app","x"⟩]) []).events =
      [Event.hashMismatch "bin/app" "bb" "aa", Event.installedOk] := by
  decide

/-- C1, amended: the installer copies every archive member into the
target root during extraction, before any verification; a FileEntry
whose staged content hashes differently from its declared hash only
produces a mismatch message naming that path with the expected and
actual hashes, the file stays in place under the target root, and the
run still ends successfully. -/
theorem c1_integrity_is_bypassable (hh : String → String) (md : Doc)
    (fd : List Doc) (m0 : Metadata) (files0 : Files) (a : List TarEntry)
    (fs0 : Fs) (fe : FileEntry) (c : String)
    (hm : parse_metadata_xml md = Except.ok m0)
    (hf : parse_files_xml fd = Except.ok files0)
    (hall : ∀ fe2 ∈ files0.File, isFileAt (unpackIn fs0 a) (osResolve fe2.Path) = true)
    (hfe : fe ∈ files0.File)
    (hget : fsGet (unpackIn fs0 a) (osResolve fe.Path) = some (FKind.file c))
    (hmis : hashMatches fe.Hash (hh c) = false) :
    (Eopkg.install_package hh (some md) (some fd) (some a) fs0).result =
      EopkgResult.success ∧
    Event.hashMismatch fe.Path fe.Hash (hh c) ∈
      (Eopkg.install_package hh (some md) (some fd) (some a) fs0).events ∧
    fsGet (Eopkg.install_package hh (some md) (some fd) (some a) fs0).fs
      (osResolve fe.Path) = some (FKind.file c) := by
  simp only [Eopkg.install_package, hm, hf]
  refine ⟨(eopkgLoop_success hh files0.File a fs0 [] hall).1,
    eopkgLoop_mismatch_mem hh files0.File a fs0 [] fe c hall hfe hget hmis, ?_⟩
  rw [eopkgLoop_fs hh a fs0 [] files0.File
    (by intro h0; rw [h0] at hfe; exact absurd hfe (by simp))]
  exact hget

/-- C1, witness: the amended statement at the concrete mismatching
bundle. -/
theorem c1_witness :
    (Eopkg.install_package (fun _ => "aa")
      (some [("Name","demo"),("Summary","s"),("Description","d"),("Architecture","x86_64")])
      (some [[("Path","bin/app"),("Type","file"),("Size","1"),("Uid","0"),
        ("Gid","0"),("Mode","755"),("Hash","bb")]])
      (some [⟨"bin/app","x"⟩]) []).result = EopkgResult.success ∧
    Event.hashMismatch "bin/app" "bb" "aa" ∈
      (Eopkg.install_package (fun _ => "aa")
      (some [("Name","demo"),("Summary","s"),("Description","d"),("Architecture","x86_64")])
      (some [[("Path","bin/app"),("Type","file"),("Size","1"),("Uid","0"),
        ("Gid","0"),("Mode","755"),("Hash","bb")]])
      (some [⟨"bin/app","x"⟩]) []).events ∧
    fsGet (Eopkg.install_package (fun _ => "aa")
      (some [("Name","demo"),("Summary","s"),("Description","d"),("Architecture","x86_64")])
      (some [[("Path","bin/app"),("Type","file"),("Size","1"),("Uid","0"),
        ("Gid","0"),("Mode","755"),("Hash","bb")]])
      (some [⟨"bin/app","x"⟩]) []).fs (osResolve "bin/app") = some (FKind.file "x") :=
  c1_integrity_is_bypassable (fun _ => "aa")
    [("Name","demo"),("Summary","s"),("Description","d"),("Architecture","x86_64")]
    [[("Path","bin/app"),("Type","file"),("Size","1"),("Uid","0"),
      ("Gid","0"),("Mode","755"),("Hash","bb")]]
    ⟨"demo","s","d","x86_64"⟩ ⟨[⟨"bin/app","file",1,0,0,"755","bb"⟩]⟩
    [⟨"bin/app","x"⟩] [] ⟨"bin/app","file",1,0,0,"755","bb"⟩ "x"
    rfl rfl (by decide) (by decide) (by decide) (by decide)

/-- C2, counterexample: an archive carrying a traversal member alongside
a legitimate one installs successfully: the traversal member is silently
skipped (no ArchiveError, no panic), while the other member is written to
the target root, so the operation does not abort before target mutation. -/
theorem c2_counterexample :
    (Eopkg.install_package (fun _ => "aa")
      (some [("Name","demo"),("Summary","s"),("Description","d"),("Architecture","x86_64")])
      (some [[("Path","bin/app"),("Type","file"),("Size","1"),("Uid","0"),
        ("Gid","0"),("Mode","755"),("Hash","aa")]])
      (some [⟨"../../etc/passwd","evil"⟩, ⟨"bin/app","x"⟩]) []).result =
      EopkgResult.success ∧
    fsGet (Eopkg.install_package (fun _ => "aa")
      (some [("Name","demo"),("Summary","s"),("Description","d"),("Architecture","x86_64")])
      (some [[("Path","bin/app"),("Type","file"),("Size","1"),("Uid","0"),
        ("Gid","0"),("Mode","755"),("Hash","aa")]])
      (some [⟨"../../etc/passwd","evil"⟩, ⟨"bin/app","x"⟩]) []).fs
      ["etc","passwd"] = none ∧
    fsGet (Eopkg.install_package (fun _ => "aa")
      (some [("Name","demo"),("Summary","s"),("Description","d"),("Architecture","x86_64")])
      (some [[("Path","bin/app"),("Type","file"),("Size","1"),("Uid","0"),
        ("Gid","0"),("Mode","755"),("Hash","aa")]])
      (some [⟨"../../etc/passwd","evil"⟩, ⟨"bin/app","x"⟩]) []).fs
      ["bin","app"] = some (FKind.file "x") ∧
    (Eopkg.install_package (fun _ => "aa")
      (some [("Name","demo"),("Summary","s"),("Description","d"),("Architecture","x86_64")])
      (some [[("Path","bin/app"),("Type","file"),("Size","1"),("Uid","0"),
        ("Gid","0"),("Mode","755"),("Hash","aa")]])
      (some [⟨"../../etc/passwd","evil"⟩, ⟨"bin/app","x"⟩]) []).events =
      [Event.installedOk] := by
  decide

/-- C2, amended: a member whose path holds a parent-directory component
is never written anywhere, but it is skipped silently rather than
rejected: the whole install run (filesystem, messages and result) is
identical to the run over the archive with all escaping members removed,
so no ArchiveError is raised and nothing aborts. -/
theorem c2_traversal_members_silently_skipped (hh : String → String)
    (metaDoc : Option Doc) (filesDoc : Option (List Doc))
    (a : List TarEntry) (fs0 : Fs) :
    Eopkg.install_package hh metaDoc filesDoc (some a) fs0 =
      Eopkg.install_package hh metaDoc filesDoc
        (some (a.filter (fun e => !escapes e.path))) fs0 := by
  cases metaDoc with
  | none => rfl
  | some md =>
    cases hpm : parse_metadata_xml md with
    | error e => simp [Eopkg.install_package, hpm]
    | ok m0 =>
      cases filesDoc with
      | none => simp [Eopkg.install_package, hpm]
      | some fd =>
        cases hpf : parse_files_xml fd with
        | error e => simp [Eopkg.install_package, hpm, hpf]
        | ok files0 =>
          simp only [Eopkg.install_package, hpm, hpf]
          exact (eopkgLoop_filter_escaping hh a fs0 [] files0.File).symm

/-- C6, counterexample: with declared hash AB and computed lowercase
digest ab, two hex strings equal up to letter case, the code still
reports a mismatch: the comparison is not case-insensitive. -/
theorem c6_counterexample :
    specCaseInsensitiveHexEq "AB" "ab" = true ∧
    hashMatches "AB" "ab" = false ∧
    (Eopkg.install_package (fun _ => "ab")
      (some [("Name","demo"),("Summary","s"),("Description","d"),("Architecture","x86_64")])
      (some [[("Path","bin/app"),("Type","file"),("Size","1"),("Uid","0"),
        ("Gid","0"),("Mode","755"),("Hash","AB")]])
      (some [⟨"bin/app","x"⟩]) []).events =
      [Event.hashMismatch "bin/app" "AB" "ab", Event.installedOk] := by
  decide

/-- C6, amended: the verifier compares the computed lowercase hex digest
against the declared hash by exact (case-sensitive) string equality, so
hex strings differing only in letter case are judged mismatched; for a
single-entry bundle the printed messages are exactly determined by that
string equality. -/
theorem c6_hash_comparison_case_sensitive (hh : String → String) (md : Doc)
    (fd : List Doc) (m0 : Metadata) (fe : FileEntry) (a : List TarEntry)
    (fs0 : Fs) (c : String)
    (hm : parse_metadata_xml md = Except.ok m0)
    (hf : parse_files_xml fd = Except.ok ⟨[fe]⟩)
    (hget : fsGet (unpackIn fs0 a) (osResolve fe.Path) = some (FKind.file c)) :
    (Eopkg.install_package hh (some md) (some fd) (some a) fs0).events =
      (if hh c == fe.Hash then [Event.installedOk]
       else [Event.hashMismatch fe.Path fe.Hash (hh c), Event.installedOk]) ∧
    hashMatches fe.Hash (hh c) = (hh c == fe.Hash) := by
  refine ⟨?_, rfl⟩
  simp only [Eopkg.install_package, hm, hf]
  simp only [eopkgLoop, hget, hashMatches]
  by_cases hb : (hh c == fe.Hash) = true
  · rw [if_pos hb, if_pos hb]
    rfl
  · rw [if_neg hb, if_neg hb]
    rfl

/-- C6, witness: the amended statement at the concrete case-differing
bundle, where the mismatch branch is taken. -/
theorem c6_witness :
    (Eopkg.install_package (fun _ => "ab")
      (some [("Name","demo"),("Summary","s"),("Description","d"),("Architecture","x86_64")])
      (some [[("Path","bin/app"),("Type","file"),("Size","1"),("Uid","0"),
        ("Gid","0"),("Mode","755"),("Hash","AB")]])
      (some [⟨"bin/app","x"⟩]) []).events =
      (if ((fun _ => "ab") "x" : String) == ("AB" : String) then [Event.installedOk]
       else [Event.hashMismatch "bin/app" "AB" "ab", Event.installedOk]) ∧
    hashMatches "AB" ((fun _ => "ab") "x") = (((fun _ => "ab") "x" : String) == "AB") :=
  c6_hash_comparison_case_sensitive (fun _ => "ab")
    [("Name","demo"),("Summary","s"),("Description","d"),("Architecture","x86_64")]
    [[("Path","bin/app"),("Type","file"),("Size","1"),("Uid","0"),
      ("Gid","0"),("Mode","755"),("Hash","AB")]]
    ⟨"demo","s","d","x86_64"⟩ ⟨"bin/app","file",1,0,0,"755","AB"⟩
    [⟨"bin/app","x"⟩] [] "x" rfl rfl (by decide)

/-- C8, counterexample: an archive member absent from the manifest is
still materialized on the target filesystem by a successful install, so
the target does not contain exactly the manifest-declared paths. -/
theorem c8_counterexample :
    (Eopkg.install_package (fun _ => "aa")
      (some [("Name","demo"),("Summary","s"),("Description","d"),("Architecture","x86_64")])
      (some [[("Path","bin/app"),("Type","file"),("Size","1"),("Uid","0"),
        ("Gid","0"),("Mode","755"),("Hash","aa")]])
      (some [⟨"bin/app","x"⟩, ⟨"hidden/secret","h"⟩]) []).result =
      EopkgResult.success ∧
    fsGet (Eopkg.install_package (fun _ => "aa")
      (some [("Name","demo"),("Summary","s"),("Description","d"),("Architecture","x86_64")])
      (some [[("Path","bin/app"),("Type","file"),("Size","1"),("Uid","0"),
        ("Gid","0"),("Mode","755"),("Hash","aa")]])
      (some [⟨"bin/app","x"⟩, ⟨"hidden/secret","h"⟩]) []).fs
      ["hidden","secret"] = some (FKind.file "h") := by
  decide

/-- C8, amended: as soon as the manifest has at least one entry, the
first loop iteration unpacks the whole archive into the target root, so
the resulting filesystem is exactly the unpack of every member, listed in
the manifest or not; in particular any non-escaping member whose
destination no later member overwrites ends up on the target with its
content. -/
theorem c8_unlisted_members_installed (hh : String → String) (md : Doc)
    (fd : List Doc) (m0 : Metadata) (files0 : Files)
    (l1 l2 : List TarEntry) (m : TarEntry) (fs0 : Fs)
    (hm : parse_metadata_xml md = Except.ok m0)
    (hf : parse_files_xml fd = Except.ok files0)
    (hne : files0.File ≠ [])
    (hesc : escapes m.path = false)
    (huniq : ∀ e ∈ l2, tarDest e.path ≠ tarDest m.path) :
    (Eopkg.install_package hh (some md) (some fd) (some (l1 ++ m :: l2)) fs0).fs =
      unpackIn fs0 (l1 ++ m :: l2) ∧
    fsGet (Eopkg.install_package hh (some md) (some fd)
      (some (l1 ++ m :: l2)) fs0).fs (tarDest m.path) =
      some (FKind.file m.content) := by
  have hfs : (Eopkg.install_package hh (some md) (some fd)
      (some (l1 ++ m :: l2)) fs0).fs = unpackIn fs0 (l1 ++ m :: l2) := by
    simp only [Eopkg.install_package, hm, hf]
    exact eopkgLoop_fs hh (l1 ++ m :: l2) fs0 [] files0.File hne
  refine ⟨hfs, ?_⟩
  rw [hfs]
  exact fsGet_unpackIn_write fs0 l1 l2 m hesc huniq

/-- C8, witness: the amended statement at the concrete bundle with a
hidden member. -/
theorem c8_witness :
    (Eopkg.install_package (fun _ => "aa")
      (some [("Name","demo"),("Summary","s"),("Description","d"),("Architecture","x86_64")])
      (some [[("Path","bin/app"),("Type","file"),("Size","1"),("Uid","0"),
        ("Gid","0"),("Mode","755"),("Hash","aa")]])
      (some ([⟨"bin/app","x"⟩] ++ ⟨"hidden/secret","h"⟩ :: [])) []).fs =
      unpackIn [] ([⟨"bin/app","x"⟩] ++ ⟨"hidden/secret","h"⟩ :: []) ∧
    fsGet (Eopkg.install_package (fun _ => "aa")
      (some [("Name","demo"),("Summary","s"),("Description","d"),("Architecture","x86_64")])
      (some [[("Path","bin/app"),("Type","file"),("Size","1"),("Uid","0"),
        ("Gid","0"),("Mode","755"),("Hash","aa")]])
      (some ([⟨"bin/app","x"⟩] ++ ⟨"hidden/secret","h"⟩ :: [])) []).fs
      (tarDest "hidden/secret") = some (FKind.file "h") :=
  c8_unlisted_members_installed (fun _ => "aa")
    [("Name","demo"),("Summary","s"),("Description","d"),("Architecture","x86_64")]
    [[("Path","bin/app"),("Type","file"),("Size","1"),("Uid","0"),
      ("Gid","0"),("Mode","755"),("Hash","aa")]]
    ⟨"demo","s","d","x86_64"⟩ ⟨[⟨"bin/app","file",1,0,0,"755","aa"⟩]⟩
    [⟨"bin/app","x"⟩] [] ⟨"hidden/secret","h"⟩ []
    rfl rfl (by decide) (by decide) (by decide)

/-- C9: the eopkg install_package reports no failure at its interface:
whenever the descriptors parse, the archive opens and every manifest path
is readable after extraction, the run ends successfully with the success
message printed last, whatever the declared hashes are: hash mismatches
are only printed and never change the result, and the extracted files
stay in place. -/
theorem c9_unit_interface_always_success (hh : String → String) (md : Doc)
    (fd : List Doc) (m0 : Metadata) (files0 : Files) (a : List TarEntry)
    (fs0 : Fs)
    (hm : parse_metadata_xml md = Except.ok m0)
    (hf : parse_files_xml fd = Except.ok files0)
    (hall : ∀ fe ∈ files0.File, isFileAt (unpackIn fs0 a) (osResolve fe.Path) = true) :
    (Eopkg.install_package hh (some md) (some fd) (some a) fs0).result =
      EopkgResult.success ∧
    (Eopkg.install_package hh (some md) (some fd) (some a) fs0).events.getLast? =
      some Event.installedOk := by
  simp only [Eopkg.install_package, hm, hf]
  exact eopkgLoop_success hh files0.File a fs0 [] hall

/-- C9, witness: the statement at a concrete bundle whose only entry has
a mismatching declared hash: the run still succeeds. -/
theorem c9_witness :
    (Eopkg.install_package (fun _ => "aa")
      (some [("Name","demo"),("Summary","s"),("Description","d"),("Architecture","x86_64")])
      (some [[("Path","bin/app"),("Type","file"),("Size","1"),("Uid","0"),
        ("Gid","0"),("Mode","755"),("Hash","ffff")]])
      (some [⟨"bin/app","x"⟩]) []).result = EopkgResult.success ∧
    (Eopkg.install_package (fun _ => "aa")
      (some [("Name","demo"),("Summary","s"),("Description","d"),("Architecture","x86_64")])
      (some [[("Path","bin/app"),("Type","file"),("Size","1"),("Uid","0"),
        ("Gid","0"),("Mode","755"),("Hash","ffff")]])
      (some [⟨"bin/app","x"⟩]) []).events.getLast? = some Event.installedOk :=
  c9_unit_interface_always_success (fun _ => "aa")
    [("Name","demo"),("Summary","s"),("Description","d"),("Architecture","x86_64")]
    [[("Path","bin/app"),("Type","file"),("Size","1"),("Uid","0"),
      ("Gid","0"),("Mode","755"),("Hash","ffff")]]
    ⟨"demo","s","d","x86_64"⟩ ⟨[⟨"bin/app","file",1,0,0,"755","ffff"⟩]⟩
    [⟨"bin/app","x"⟩] [] rfl rfl (by decide)

/-- C7: parsing is a hard failure on missing mandatory elements: a
metadata document lacking Name fails with an error naming Name (and the
installer surfaces it by panicking rather than substituting a default),
a file-list entry lacking Path fails naming Path, and one carrying every
earlier field but lacking Hash fails naming Hash. -/
theorem c7_missing_fields_hard_failure (md d : Doc) (rest : List Doc)
    (pv tv mv : String) (sv uv gv : Nat) (hh : String → String)
    (filesDoc : Option (List Doc)) (arch : Option (List TarEntry)) (fs0 : Fs) :
    (hasField md "Name" = false →
      parse_metadata_xml md = Except.error (missingFieldMsg "Name") ∧
      (Eopkg.install_package hh (some md) filesDoc arch fs0).result =
        EopkgResult.panicked "Failed to parse metadata.xml") ∧
    (hasField d "Path" = false →
      parse_files_xml (d :: rest) = Except.error (missingFieldMsg "Path")) ∧
    (getField d "Path" = Except.ok pv →
     getField d "Type" = Except.ok tv →
     parseNatField d "Size" = Except.ok sv →
     parseNatField d "Uid" = Except.ok uv →
     parseNatField d "Gid" = Except.ok gv →
     getField d "Mode" = Except.ok mv →
     hasField d "Hash" = false →
      parse_files_xml (d :: rest) = Except.error (missingFieldMsg "Hash")) := by
  refine ⟨?_, ?_, ?_⟩
  · intro hname
    have hge := getField_of_not_hasField md "Name" hname
    have hpm : parse_metadata_xml md = Except.error (missingFieldMsg "Name") := by
      simp [parse_metadata_xml, hge, Except.bind, Bind.bind]
    refine ⟨hpm, ?_⟩
    simp [Eopkg.install_package, hpm]
  · intro hpath
    have hge := getField_of_not_hasField d "Path" hpath
    simp [parse_files_xml, parseFileEntries, parseFileEntry, hge,
      Except.bind, Bind.bind]
  · intro h1 h2 h3 h4 h5 h6 hhash
    have hge := getField_of_not_hasField d "Hash" hhash
    simp [parse_files_xml, parseFileEntries, parseFileEntry,
      h1, h2, h3, h4, h5, h6, hge, Except.bind, Bind.bind]

/-- C7, witness: the statement at concrete documents missing Name, Path
and Hash respectively. -/
theorem c7_witness :
    (parse_metadata_xml [("Summary","s")] =
        Except.error (missingFieldMsg "Name") ∧
      (Eopkg.install_package (fun _ => "") (some [("Summary","s")])
        none none []).result =
        EopkgResult.panicked "Failed to parse metadata.xml") ∧
    parse_files_xml [[("Type","file")]] =
      Except.error (missingFieldMsg "Path") ∧
    parse_files_xml [[("Path","usr/a"),("Type","file"),("Size","1"),
      ("Uid","0"),("Gid","0"),("Mode","644")]] =
      Except.error (missingFieldMsg "Hash") :=
  ⟨(c7_missing_fields_hard_failure [("Summary","s")] [("Type","file")] []
      "" "" "" 0 0 0 (fun _ => "") none none []).1 (by decide),
   (c7_missing_fields_hard_failure [("Summary","s")] [("Type","file")] []
      "" "" "" 0 0 0 (fun _ => "") none none []).2.1 (by decide),
   (c7_missing_fields_hard_failure [("Summary","s")]
      [("Path","usr/a"),("Type","file"),("Size","1"),
        ("Uid","0"),("Gid","0"),("Mode","644")] []
      "usr/a" "file" "644" 1 0 0 (fun _ => "") none none []).2.2
      rfl rfl rfl rfl rfl rfl (by decide)⟩

/-- C3, counterexample: installing without force against a target where
one of the two entries already exists does not fail with a ConflictError
and does not stop at the first conflict: the existing path is warned
about and skipped, the other entry is still written, and the install
returns success. -/
theorem c3_counterexample :
    (Rpm.install_package (fun _ => false)
      (some [⟨["usr","a"], FKind.file "x"⟩, ⟨["usr","b"], FKind.file "y"⟩])
      [] [(["usr"], FKind.dir), (["usr","a"], FKind.file "x")]).result =
      RustResult.ok ∧
    pathExists (Rpm.install_package (fun _ => false)
      (some [⟨["usr","a"], FKind.file "x"⟩, ⟨["usr","b"], FKind.file "y"⟩])
      [] [(["usr"], FKind.dir), (["usr","a"], FKind.file "x")]).target
      ["usr","b"] = true ∧
    (Rpm.install_package (fun _ => false)
      (some [⟨["usr","a"], FKind.file "x"⟩, ⟨["usr","b"], FKind.file "y"⟩])
      [] [(["usr"], FKind.dir), (["usr","a"], FKind.file "x")]).warns =
      [["usr","a"]] := by
  decide

/-- C3, amended: an already existing target path is warned about and
skipped and installation proceeds with the remaining entries (the parsed
force flag is never consulted); re-running against a fully-installed
target yields success with the target untouched, every entry warned, and
the staging directory removed, not a ConflictError. -/
theorem c3_conflicts_skipped_not_fatal (ioErr : List String → Bool)
    (arch staging0 : List CpioNode) (target0 : Fs)
    (husr : usrExists (staging0 ++ arch) = true)
    (hall : ∀ c ∈ childNames (staging0 ++ arch),
      pathExists target0 ["usr", c] = true) :
    Rpm.install_package ioErr (some arch) staging0 target0 =
      ⟨target0, none,
        (childNames (staging0 ++ arch)).map (fun c => ["usr", c]),
        RustResult.ok⟩ := by
  simp only [Rpm.install_package, Rpm.extract_rpm_cpio]
  rw [if_pos husr]
  rw [rpmLoop_all_exist ioErr (staging0 ++ arch)
    (childNames (staging0 ++ arch)) target0 [] hall]
  simp

/-- C3, witness: the amended statement at a concrete fully-installed
target. -/
theorem c3_witness :
    Rpm.install_package (fun _ => false) (some [⟨["usr","a"], FKind.file "x"⟩])
      [] [(["usr"], FKind.dir), (["usr","a"], FKind.file "x")] =
      ⟨[(["usr"], FKind.dir), (["usr","a"], FKind.file "x")], none,
        (childNames ([] ++ [⟨["usr","a"], FKind.file "x"⟩])).map
          (fun c => ["usr", c]),
        RustResult.ok⟩ :=
  c3_conflicts_skipped_not_fatal (fun _ => false)
    [⟨["usr","a"], FKind.file "x"⟩] []
    [(["usr"], FKind.dir), (["usr","a"], FKind.file "x")]
    (by decide) (by decide)

/-- C5, counterexample: the staging directory is neither fresh nor
deleted on failure: with an empty archive and a stale staging left by a
previous run, the stale entry alone drives the install (it is listed as
a usr/ child), and after the failing copy the staging directory is still
there with the stale content. -/
theorem c5_counterexample :
    childNames ([⟨["usr","stale"], FKind.file "old"⟩] ++ []) = ["stale"] ∧
    (Rpm.install_package (fun _ => true) (some [])
      [⟨["usr","stale"], FKind.file "old"⟩] []).result =
      RustResult.err copyErrMsg ∧
    (Rpm.install_package (fun _ => true) (some [])
      [⟨["usr","stale"], FKind.file "old"⟩] []).staging =
      some [⟨["usr","stale"], FKind.file "old"⟩] := by
  decide

/-- C5, amended: the staging directory is the fixed path
/tmp/rpm_extract; extraction appends the archive after whatever stale
content the directory already holds, and the directory is removed only
when the whole install succeeds: after any failure it survives with the
stale-plus-extracted content, available for reuse by the next install. -/
theorem c5_staging_removed_only_on_success (ioErr : List String → Bool)
    (arch staging0 : List CpioNode) (target0 : Fs) :
    ((Rpm.install_package ioErr (some arch) staging0 target0).result =
        RustResult.ok →
      (Rpm.install_package ioErr (some arch) staging0 target0).staging = none) ∧
    (∀ e, (Rpm.install_package ioErr (some arch) staging0 target0).result =
        RustResult.err e →
      (Rpm.install_package ioErr (some arch) staging0 target0).staging =
        some (staging0 ++ arch)) := by
  simp only [Rpm.install_package, Rpm.extract_rpm_cpio]
  by_cases husr : usrExists (staging0 ++ arch) = true
  · rw [if_pos husr]
    obtain ⟨⟨t, ws, r⟩, hl⟩ : ∃ x, rpmLoop ioErr (staging0 ++ arch)
        (childNames (staging0 ++ arch)) target0 [] = x := ⟨_, rfl⟩
    rw [hl]
    cases r with
    | ok =>
      refine ⟨fun _ => rfl, fun e he => ?_⟩
      exact absurd he (by simp)
    | err e0 =>
      refine ⟨fun hok => ?_, fun e he => rfl⟩
      exact absurd hok (by simp)
  · rw [if_neg husr]
    refine ⟨fun hok => ?_, fun e he => rfl⟩
    exact absurd hok (by simp)

/-- C5, witness: the amended statement at a concrete failing install
with stale staging content. -/
theorem c5_witness :
    (Rpm.install_package (fun _ => true) (some [])
      [⟨["usr","stale"], FKind.file "old"⟩] []).staging =
      some ([⟨["usr","stale"], FKind.file "old"⟩] ++ []) :=
  (c5_staging_removed_only_on_success (fun _ => true) []
    [⟨["usr","stale"], FKind.file "old"⟩] []).2 copyErrMsg (by decide)

/-- C4, counterexample: when the copy of the second entry fails, the
installer surfaces the error at once: the first entry it created is left
on the target (no rollback) and the staging directory survives. -/
theorem c4_counterexample :
    (Rpm.install_package (fun p => p == ["usr","b"])
      (some [⟨["usr","a"], FKind.file "x"⟩, ⟨["usr","b"], FKind.file "y"⟩])
      [] []).result = RustResult.err copyErrMsg ∧
    pathExists (Rpm.install_package (fun p => p == ["usr","b"])
      (some [⟨["usr","a"], FKind.file "x"⟩, ⟨["usr","b"], FKind.file "y"⟩])
      [] []).target ["usr","a"] = true ∧
    (Rpm.install_package (fun p => p == ["usr","b"])
      (some [⟨["usr","a"], FKind.file "x"⟩, ⟨["usr","b"], FKind.file "y"⟩])
      [] []).staging =
      some [⟨["usr","a"], FKind.file "x"⟩, ⟨["usr","b"], FKind.file "y"⟩] := by
  decide

/-- C4, amended: on a fatal error during plan application the installer
returns the error immediately and removes nothing: every target path
already created during the operation stays in place and the staging
directory is not cleaned up. -/
theorem c4_no_rollback_on_failure (ioErr : List String → Bool)
    (arch staging0 : List CpioNode) (target0 : Fs)
    (c1 c2 : String) (rest : List String) (s1 s2 : String)
    (husr : usrExists (staging0 ++ arch) = true)
    (hcn : childNames (staging0 ++ arch) = c1 :: c2 :: rest)
    (hne1 : pathExists target0 ["usr", c1] = false)
    (hk1 : childKind (staging0 ++ arch) c1 = FKind.file s1)
    (hio1 : ioErr ["usr", c1] = false)
    (hne2 : pathExists target0 ["usr", c2] = false)
    (hcc : c2 ≠ c1)
    (hk2 : childKind (staging0 ++ arch) c2 = FKind.file s2)
    (hio2 : ioErr ["usr", c2] = true) :
    (Rpm.install_package ioErr (some arch) staging0 target0).result =
      RustResult.err copyErrMsg ∧
    pathExists (Rpm.install_package ioErr (some arch) staging0 target0).target
      ["usr", c1] = true ∧
    (Rpm.install_package ioErr (some arch) staging0 target0).staging =
      some (staging0 ++ arch) := by
  have hex2 : pathExists (fsSet (createDirAll target0 ["usr"]) ["usr", c1]
      (FKind.file s1)) ["usr", c2] = false := by
    rw [Bool.eq_false_iff]
    intro hT
    rcases (pathExists_fsSet (createDirAll target0 ["usr"]) ["usr", c1]
      ["usr", c2] (FKind.file s1)).mp hT with he | hT1
    · simp only [List.cons.injEq] at he
      exact hcc he.2.1
    · rcases (pathExists_createDirAll target0 ["usr"] ["usr", c2]).mp hT1 with
        hT0 | hmem
      · rw [hne2] at hT0
        exact absurd hT0 (by simp)
      · rw [prefixesNE_single] at hmem
        simp at hmem
  have hloop : rpmLoop ioErr (staging0 ++ arch) (c1 :: c2 :: rest) target0 [] =
      (createDirAll (fsSet (createDirAll target0 ["usr"]) ["usr", c1]
        (FKind.file s1)) ["usr"], [], RustResult.err copyErrMsg) := by
    simp [rpmLoop, hne1, hk1, hio1, hex2, hk2, hio2]
  have hinst : Rpm.install_package ioErr (some arch) staging0 target0 =
      ⟨createDirAll (fsSet (createDirAll target0 ["usr"]) ["usr", c1]
        (FKind.file s1)) ["usr"],
        some (staging0 ++ arch), [], RustResult.err copyErrMsg⟩ := by
    simp only [Rpm.install_package, Rpm.extract_rpm_cpio]
    rw [if_pos husr, hcn, hloop]
  rw [hinst]
  refine ⟨rfl, ?_, rfl⟩
  have h1 : pathExists (fsSet (createDirAll target0 ["usr"]) ["usr", c1]
      (FKind.file s1)) ["usr", c1] = true :=
    (pathExists_fsSet _ _ _ _).mpr (Or.inl rfl)
  exact (pathExists_createDirAll _ ["usr"] ["usr", c1]).mpr (Or.inl h1)

/-- C4, witness: the amended statement at the concrete two-entry archive
whose second copy fails. -/
theorem c4_witness :
    (Rpm.install_package (fun p => p == ["usr","b"])
      (some [⟨["usr","a"], FKind.file "x"⟩, ⟨["usr","b"], FKind.file "y"⟩])
      [] []).result = RustResult.err copyErrMsg ∧
    pathExists (Rpm.install_package (fun p => p == ["usr","b"])
      (some [⟨["usr","a"], FKind.file "x"⟩, ⟨["usr","b"], FKind.file "y"⟩])
      [] []).target ["usr","a"] = true ∧
    (Rpm.install_package (fun p => p == ["usr","b"])
      (some [⟨["usr","a"], FKind.file "x"⟩, ⟨["usr","b"], FKind.file "y"⟩])
      [] []).staging =
      some ([] ++ [⟨["usr","a"], FKind.file "x"⟩, ⟨["usr","b"], FKind.file "y"⟩]) :=
  c4_no_rollback_on_failure (fun p => p == ["usr","b"])
    [⟨["usr","a"], FKind.file "x"⟩, ⟨["usr","b"], FKind.file "y"⟩] [] []
    "a" "b" [] "x" "y"
    (by decide) (by decide) (by decide) (by decide) (by decide)
    (by decide) (by decide) (by decide) (by decide)

/-- C10: the rpm installer touches only the usr/ subtree: with no usr/
directory in the staging area it fails before any target write, leaving
the target exactly as it was, and any path present on the target after a
run was either there before or is /usr or /usr/(child) for a usr/ child
of the staging area. -/
theorem c10_only_usr_subtree (ioErr : List String → Bool)
    (arch staging0 : List CpioNode) (target0 : Fs) :
    (usrExists (staging0 ++ arch) = false →
      Rpm.install_package ioErr (some arch) staging0 target0 =
        ⟨target0, some (staging0 ++ arch), [],
          RustResult.err installDirMissingMsg⟩) ∧
    (∀ p, pathExists (Rpm.install_package ioErr (some arch) staging0
        target0).target p = true →
      pathExists target0 p = true ∨ p = ["usr"] ∨
        ∃ c ∈ childNames (staging0 ++ arch), p = ["usr", c]) := by
  constructor
  · intro husr
    simp only [Rpm.install_package, Rpm.extract_rpm_cpio]
    rw [if_neg (by simp [husr])]
  · intro p hp
    simp only [Rpm.install_package, Rpm.extract_rpm_cpio] at hp
    by_cases husr : usrExists (staging0 ++ arch) = true
    · rw [if_pos husr] at hp
      obtain ⟨⟨t, ws, r⟩, hl⟩ : ∃ x, rpmLoop ioErr (staging0 ++ arch)
          (childNames (staging0 ++ arch)) target0 [] = x := ⟨_, rfl⟩
      rw [hl] at hp
      cases r with
      | ok =>
        exact rpmLoop_target_paths ioErr (staging0 ++ arch)
          (childNames (staging0 ++ arch)) target0 [] p (by rw [hl]; exact hp)
      | err e =>
        exact rpmLoop_target_paths ioErr (staging0 ++ arch)
          (childNames (staging0 ++ arch)) target0 [] p (by rw [hl]; exact hp)
    · rw [if_neg husr] at hp
      exact Or.inl hp

/-- C10, witness: part one at an archive with no usr/ subtree, part two
at a written usr/ child path. -/
theorem c10_witness :
    Rpm.install_package (fun _ => false)
      (some [⟨["etc","x"], FKind.file "e"⟩]) [] [] =
      ⟨[], some ([] ++ [⟨["etc","x"], FKind.file "e"⟩]), [],
        RustResult.err installDirMissingMsg⟩ ∧
    (pathExists [] ["usr","a"] = true ∨ (["usr","a"] : List String) = ["usr"] ∨
      ∃ c ∈ childNames ([] ++ [⟨["usr","a"], FKind.file "x"⟩]),
        (["usr","a"] : List String) = ["usr", c]) :=
  ⟨(c10_only_usr_subtree (fun _ => false)
      [⟨["etc","x"], FKind.file "e"⟩] [] []).1 (by decide),
   (c10_only_usr_subtree (fun _ => false)
      [⟨["usr","a"], FKind.file "x"⟩] [] []).2 ["usr","a"] (by decide)⟩
